import Mathlib

/-!
Verification of the session-orchestration core of the ADA voice assistant
(backend/ada.py and backend/project_manager.py), shallowly embedded in Lean.

Python strings are modelled as `List Char`, Python dicts as functions into
`Option`, the asyncio playback queue as a list, wall-clock timestamps as
rationals, and Python exceptions as the `Except` monad.
-/

namespace Ada

/-- Python string (the transcript texts handled by the receive loop). -/
abbrev Str := List Char

/-- Sender tag used by the input-transcription branch of `receive_audio`. -/
def senderUser : String := "User"

/-- Sender tag used by the output-transcription branch of `receive_audio`. -/
def senderAda : String := "ADA"

/-- Delta computation of `receive_audio` (ada.py lines 658-661 and 689-692):
`delta = transcript; if transcript.startswith(last): delta = transcript[len(last):]`. -/
def computeDelta (last transcript : Str) : Str :=
  if last <+: transcript then transcript.drop last.length else transcript

/-- `self.chat_buffer`: `{"sender": None, "text": ""}` with the sender possibly unset. -/
structure ChatBuffer where
  sender : Option String
  text : Str
deriving Repr, DecidableEq

/-- Python `str.strip()` (used only for its truthiness in the flush condition). -/
def pyStrip (s : Str) : Str :=
  ((s.dropWhile Char.isWhitespace).reverse.dropWhile Char.isWhitespace).reverse

/-- The mutable state of `AudioLoop` touched by the transcription branches of
`receive_audio`: the last cumulative transcript per channel, the playback queue
`audio_in_queue` (chunks abstracted as naturals), the chat buffer and the
persisted chat log. -/
structure RecvState where
  lastInput : Str
  lastOutput : Str
  audioInQueue : List Nat
  chatBuffer : ChatBuffer
  chatLog : List (String × Str)
deriving Repr, DecidableEq

/-- `AudioLoop.clear_audio_queue` (ada.py lines 322-332): drain the playback
queue with `get_nowait` until empty. -/
def clearAudioQueue (s : RecvState) : RecvState :=
  { s with audioInQueue := [] }

/-- State of `AudioLoop` at construction time (`__init__`): empty last
transcripts, empty queue, unset chat buffer. -/
def recvInit : RecvState :=
  { lastInput := [], lastOutput := [], audioInQueue := [],
    chatBuffer := { sender := none, text := [] }, chatLog := [] }

/-- The input-transcription branch of `receive_audio` (ada.py lines 653-682).
Returns the updated state and the delta emitted to `on_transcription`
(`none` when nothing is emitted). -/
def processInputTranscription (s : RecvState) (transcript : Str) :
    RecvState × Option Str :=
  if transcript = [] then (s, none)
  else if transcript = s.lastInput then (s, none)
  else
    let delta := computeDelta s.lastInput transcript
    let s1 := { s with lastInput := transcript }
    if delta = [] then (s1, none)
    else
      let s2 := clearAudioQueue s1
      let s3 :=
        if s2.chatBuffer.sender ≠ some senderUser then
          let s4 :=
            if s2.chatBuffer.sender.isSome ∧ pyStrip s2.chatBuffer.text ≠ [] then
              { s2 with chatLog :=
                  s2.chatLog ++ [(s2.chatBuffer.sender.getD senderUser, s2.chatBuffer.text)] }
            else s2
          { s4 with chatBuffer := { sender := some senderUser, text := delta } }
        else
          { s2 with chatBuffer :=
              { sender := s2.chatBuffer.sender, text := s2.chatBuffer.text ++ delta } }
      (s3, some delta)

/-- The output-transcription branch of `receive_audio` (ada.py lines 684-710).
Identical delta logic, but no playback-queue clearing and the `ADA` sender. -/
def processOutputTranscription (s : RecvState) (transcript : Str) :
    RecvState × Option Str :=
  if transcript = [] then (s, none)
  else if transcript = s.lastOutput then (s, none)
  else
    let delta := computeDelta s.lastOutput transcript
    let s1 := { s with lastOutput := transcript }
    if delta = [] then (s1, none)
    else
      let s3 :=
        if s1.chatBuffer.sender ≠ some senderAda then
          let s4 :=
            if s1.chatBuffer.sender.isSome ∧ pyStrip s1.chatBuffer.text ≠ [] then
              { s1 with chatLog :=
                  s1.chatLog ++ [(s1.chatBuffer.sender.getD senderAda, s1.chatBuffer.text)] }
            else s1
          { s4 with chatBuffer := { sender := some senderAda, text := delta } }
        else
          { s1 with chatBuffer :=
              { sender := s1.chatBuffer.sender, text := s1.chatBuffer.text ++ delta } }
      (s3, some delta)

/-- Processing of a sequence of cumulative input transcripts delivered on the
input channel, collecting the emitted deltas in order. -/
def processInputSeq : RecvState → List Str → RecvState × List Str
  | s, [] => (s, [])
  | s, t :: ts =>
    let r1 := processInputTranscription s t
    let r2 := processInputSeq r1.1 ts
    (r2.1, r1.2.toList ++ r2.2)

/-- Processing of a sequence of cumulative output transcripts delivered on the
output channel, collecting the emitted deltas in order. -/
def processOutputSeq : RecvState → List Str → RecvState × List Str
  | s, [] => (s, [])
  | s, t :: ts =>
    let r1 := processOutputTranscription s t
    let r2 := processOutputSeq r1.1 ts
    (r2.1, r1.2.toList ++ r2.2)

/-! ## Voice-activity detection (`AudioLoop.listen_audio`, ada.py lines 413-465) -/

/-- `VAD_THRESHOLD = 800` (ada.py line 414). -/
def vadThreshold : Nat := 800

/-- `SILENCE_DURATION = 0.5` seconds (ada.py line 415). -/
def silenceDuration : ℚ := 1/2

/-- RMS energy of a chunk of signed 16-bit samples (ada.py lines 432-438):
`int(math.sqrt(sum(s**2 for s in shorts) / count))`, with the real-valued
square root floored; an empty chunk has RMS 0. -/
def rms (shorts : List Int) : Nat :=
  if shorts = [] then 0
  else Nat.sqrt ((shorts.map (fun v => (v * v).toNat)).sum / shorts.length)

/-- An item placed on the outbound queue `out_queue`: an audio chunk
`{"data": .., "mime_type": "audio/pcm"}` or an image frame
`{"mime_type": "image/jpeg", "data": ..}`. -/
inductive OutItem where
  | audio (data : List Int)
  | image (data : String)
deriving Repr, DecidableEq

/-- The mutable state of `AudioLoop` touched by one iteration of the
`listen_audio` loop: the VAD flags `_is_speaking` and `_silence_start_time`,
the single-slot `_latest_image_payload`, and the outbound queue. -/
structure ListenState where
  isSpeaking : Bool
  silenceStart : Option ℚ
  latestImage : Option String
  outQueue : List OutItem
deriving Repr, DecidableEq

/-- VAD state at construction time: not speaking, no silence timer, no frame. -/
def listenInit : ListenState :=
  { isSpeaking := false, silenceStart := none, latestImage := none, outQueue := [] }

/-- `AudioLoop.send_frame`: overwrite the single-slot latest frame payload. -/
def sendFrame (s : ListenState) (data : String) : ListenState :=
  { s with latestImage := some data }

/-- One iteration of the `listen_audio` loop (ada.py lines 422-465) processing
a chunk read at wall-clock time `t`: the audio chunk is always enqueued, then
the VAD logic runs on its RMS. -/
def listenStep (s : ListenState) (t : ℚ) (data : List Int) : ListenState :=
  let s := { s with outQueue := s.outQueue ++ [OutItem.audio data] }
  if vadThreshold < rms data then
    -- Speech detected: cancel the silence timer
    let s := { s with silenceStart := none }
    if s.isSpeaking = false then
      -- New utterance onset: send at most one frame
      let s := { s with isSpeaking := true }
      match s.latestImage with
      | some img => { s with outQueue := s.outQueue ++ [OutItem.image img] }
      | none => s
    else s
  else
    if s.isSpeaking then
      match s.silenceStart with
      | none => { s with silenceStart := some t }
      | some t0 =>
        if silenceDuration < t - t0 then
          { s with isSpeaking := false, silenceStart := none }
        else s
    else s

/-- Run `listen_audio` over a sequence of (time, chunk) pairs. -/
def listenRun (s : ListenState) (cs : List (ℚ × List Int)) : ListenState :=
  cs.foldl (fun st c => listenStep st c.1 c.2) s

/-- Number of times `_is_speaking` is toggled from true to false while
processing the given chunk sequence. -/
def toggleOffCount : ListenState → List (ℚ × List Int) → Nat
  | _, [] => 0
  | s, c :: cs =>
    let s1 := listenStep s c.1 c.2
    (if s.isSpeaking = true ∧ s1.isSpeaking = false then 1 else 0) + toggleOffCount s1 cs

/-- A block of chunks that are all above the VAD threshold. -/
def blockAbove (b : List (ℚ × List Int)) : Prop :=
  ∀ c ∈ b, vadThreshold < rms c.2

/-- A block of chunks that are all at or below the VAD threshold, every chunk
arriving less than `SILENCE_DURATION` after the first chunk of the block. -/
def blockBelowShort : List (ℚ × List Int) → Prop
  | [] => True
  | c0 :: rest => ∀ c ∈ c0 :: rest, rms c.2 ≤ vadThreshold ∧ c.1 < c0.1 + silenceDuration

/-- A chunk sequence split into nonempty maximal runs alternating between
above-threshold and at-or-below-threshold, every sub-threshold run spanning
less than `SILENCE_DURATION`; `ab` tells whether the next run is above. -/
def altShortRuns : Bool → List (List (ℚ × List Int)) → Prop
  | _, [] => True
  | ab, b :: bs =>
    b ≠ [] ∧ (if ab then blockAbove b else blockBelowShort b) ∧ altShortRuns (!ab) bs

/-! ## Confirmation broker (`AudioLoop.resolve_tool_confirmation`, ada.py lines 310-320) -/

/-- An `asyncio.Future` carrying the confirmation decision; the future is done
exactly when a result has been set. -/
structure PyFuture where
  result : Option Bool
deriving Repr, DecidableEq

/-- `future.done()`. -/
def futureDone (f : PyFuture) : Bool := f.result.isSome

/-- The `_pending_confirmations` dict, keyed by request id. -/
abbrev Pending := String → Option PyFuture

/-- `future.set_result(value)`: raises `InvalidStateError` if already done. -/
def invalidStateErrorMsg : String := "InvalidStateError"

/-- `future.set_result(value)` as a fallible operation. -/
def futureSetResult (f : PyFuture) (value : Bool) : Except String PyFuture :=
  if futureDone f then Except.error invalidStateErrorMsg
  else Except.ok { result := some value }

/-- `AudioLoop.resolve_tool_confirmation` (ada.py lines 310-320): look up the
pending future; set its result only when present and not yet done; otherwise
log a warning and leave everything unchanged. -/
def resolveToolConfirmation (p : Pending) (requestId : String) (confirmed : Bool) :
    Except String Pending :=
  match p requestId with
  | some future =>
    if futureDone future = false then
      match futureSetResult future confirmed with
      | Except.ok f1 => Except.ok (fun x => if x = requestId then some f1 else p x)
      | Except.error e => Except.error e
    else
      Except.ok p
  | none => Except.ok p

/-! ## Tool dispatch (`AudioLoop.receive_audio`, ada.py lines 716-1113) -/

/-- A `function_call` event from the model (arguments abstracted away; no
claim depends on them). -/
structure FunctionCall where
  id : String
  name : String
deriving Repr, DecidableEq

/-- A `types.FunctionResponse` appended to the batch sent back to the session. -/
structure FunctionResponse where
  id : String
  name : String
  result : String
deriving Repr, DecidableEq

def toolGenerateCad : String := "generate_cad"
def toolRunWebAgent : String := "run_web_agent"
def toolWriteFile : String := "write_file"
def toolReadDirectory : String := "read_directory"
def toolReadFile : String := "read_file"
def toolCreateProject : String := "create_project"
def toolSwitchProject : String := "switch_project"
def toolListProjects : String := "list_projects"
def toolListSmartDevices : String := "list_smart_devices"
def toolControlLight : String := "control_light"
def toolDiscoverPrinters : String := "discover_printers"
def toolPrintStl : String := "print_stl"
def toolGetPrintStatus : String := "get_print_status"
def toolIterateCad : String := "iterate_cad"

/-- The closed list of recognized tool names (ada.py line 721). -/
def recognizedTools : List String :=
  [toolGenerateCad, toolRunWebAgent, toolWriteFile, toolReadDirectory, toolReadFile,
   toolCreateProject, toolSwitchProject, toolListProjects, toolListSmartDevices,
   toolControlLight, toolDiscoverPrinters, toolPrintStl, toolGetPrintStatus,
   toolIterateCad]

/-- The tools whose handler awaits an external agent inline in the receive
loop (kasa / printer / cad agents), with no try-except at the dispatch site. -/
def syncAgentTools : List String :=
  [toolControlLight, toolDiscoverPrinters, toolPrintStl, toolGetPrintStatus,
   toolIterateCad]

def webAgentStartedText : String := "Web Navigation started. Do not reply to this message."
def writingFileText : String := "Writing file..."
def readingDirectoryText : String := "Reading directory..."
def readingFileText : String := "Reading file..."

/-- Function-result text synthesized on confirmation denial (ada.py line 762). -/
def denialResultText : String := "User denied the request to use this tool."

/-- The Python error raised when the confirmation branch reads the local
`request_id` that was never assigned (quote marks of the original message
elided): ada.py line 736 with `on_tool_confirmation` unset. -/
def nameErrorRequestId : String := "NameError: name request_id is not defined"

/-- The environment a single dispatch runs in: the `PermissionMap`, whether an
`on_tool_confirmation` callback was passed at construction, the generated
`uuid4` request id, the decision each confirmation future is eventually
resolved with, the behaviour of the awaited external agent per synchronous
tool (a raised exception or a result summary string), and the result strings
of the local project-manager / device-cache tools. -/
structure DispatchEnv where
  permissions : String → Option Bool
  onToolConfirmation : Bool
  newRequestId : String
  decision : String → Bool
  agent : String → Except String String
  localResult : String → String

/-- Execution section of the dispatch (ada.py lines 780-1111), reached only
after the confirmation gate. Fire-and-forget tools spawn a background task
(`generate_cad` returns no function-result; the others return a fixed
acknowledgement). The five synchronous agent-backed tools await the external
agent inline with no exception handler; the agent result summary becomes the
function-result text. The remaining tools are handled by local collaborators
that return a result string. -/
def executeTool (env : DispatchEnv) (fc : FunctionCall) :
    Except String (List FunctionResponse) :=
  if fc.name = toolGenerateCad then Except.ok []
  else if fc.name = toolRunWebAgent then
    Except.ok [{ id := fc.id, name := fc.name, result := webAgentStartedText }]
  else if fc.name = toolWriteFile then
    Except.ok [{ id := fc.id, name := fc.name, result := writingFileText }]
  else if fc.name = toolReadDirectory then
    Except.ok [{ id := fc.id, name := fc.name, result := readingDirectoryText }]
  else if fc.name = toolReadFile then
    Except.ok [{ id := fc.id, name := fc.name, result := readingFileText }]
  else if fc.name ∈ syncAgentTools then
    match env.agent fc.name with
    | Except.ok msg => Except.ok [{ id := fc.id, name := fc.name, result := msg }]
    | Except.error e => Except.error e
  else
    Except.ok [{ id := fc.id, name := fc.name, result := env.localResult fc.name }]

/-- Processing of one recognized function call (ada.py lines 720-1111):
permission check with default `True`, the confirmation branch (which assigns
`request_id` only under `if self.on_tool_confirmation:`, awaits the future and
pops the pending entry in a `finally`), the denial short-circuit, then the
execution section. Returns the function-results produced for the batch, the
pending-confirmations map afterwards, and whether the execution section ran. -/
def processFunctionCall (env : DispatchEnv) (pending : Pending) (fc : FunctionCall) :
    Except String (List FunctionResponse × Pending × Bool) :=
  if fc.name ∈ recognizedTools then
    let confirmationRequired := (env.permissions fc.name).getD true
    if confirmationRequired = false then
      -- AUTO-ALLOW: skip the confirmation block
      match executeTool env fc with
      | Except.ok rs => Except.ok (rs, pending, true)
      | Except.error e => Except.error e
    else
      let requestId : Option String :=
        if env.onToolConfirmation then some env.newRequestId else none
      match requestId with
      | none =>
        -- the log statement reads the never-assigned local `request_id`
        Except.error nameErrorRequestId
      | some rid =>
        -- future stored under `rid`, awaited, and popped in the `finally`
        let pending1 : Pending := fun x => if x = rid then none else pending x
        let confirmed := env.decision rid
        if confirmed = false then
          Except.ok ([{ id := fc.id, name := fc.name, result := denialResultText }],
            pending1, false)
        else
          match executeTool env fc with
          | Except.ok rs => Except.ok (rs, pending1, true)
          | Except.error e => Except.error e
  else
    -- unrecognized tool names are ignored
    Except.ok ([], pending, false)

/-- Processing of one `tool_call` batch in arrival order (ada.py lines
717-1113); an exception escaping any dispatch aborts the batch and propagates
to the outer handler of `receive_audio`, which re-raises it (lines 1120-1124),
terminating the receive loop. -/
def processBatch (env : DispatchEnv) :
    Pending → List FunctionResponse → List FunctionCall →
    Except String (List FunctionResponse × Pending)
  | pending, acc, [] => Except.ok (acc, pending)
  | pending, acc, fc :: fcs =>
    match processFunctionCall env pending fc with
    | Except.ok (rs, pending1, _) => processBatch env pending1 (acc ++ rs) fcs
    | Except.error e => Except.error e

/-! ## Chat history and reconnect context replay
(`ProjectManager.get_recent_chat_history`, project_manager.py lines 144-165,
and the reconnect branch of `AudioLoop.run`, ada.py lines 1211-1226) -/

/-- A well-formed persisted chat entry (one JSON line of `chat_history.jsonl`). -/
structure ChatEntry where
  sender : String
  text : String
deriving Repr, DecidableEq

/-- `ProjectManager.get_recent_chat_history`: take the last `limit` lines of
the log and keep those that parse (`json.loads` failures are skipped). -/
def getRecentChatHistory (lines : List (Option ChatEntry)) (limit : Nat) :
    List ChatEntry :=
  ((lines.drop (lines.length - limit)).filterMap id)

def reconnectHeader : String :=
  "System Notification: Connection was lost and just re-established. Here is the recent chat history to help you resume seamlessly:\n\n"

/-- Closing instruction of the restoration message (the parenthesized example
utterance of the source is elided). -/
def reconnectFooter : String :=
  "\nPlease acknowledge the reconnection to the user and resume what you were doing."

def entryOpen : String := "["
def entrySep : String := "]: "
def entryNl : String := "\n"

/-- One `[sender]: text` line of the restoration message. -/
def renderEntry (e : ChatEntry) : String :=
  entryOpen ++ e.sender ++ entrySep ++ e.text ++ entryNl

/-- The context-restoration message assembled on reconnect (ada.py 1217-1223). -/
def reconnectContextMessage (history : List ChatEntry) : String :=
  reconnectHeader ++ String.join (history.map renderEntry) ++ reconnectFooter

/-- The messages sent into the session by the reconnect branch, paired with
their `end_of_turn` flag: exactly one closed-turn restoration message. -/
def reconnectMessages (history : List ChatEntry) : List (String × Bool) :=
  [(reconnectContextMessage history, true)]

/-! ## Session supervisor backoff (`AudioLoop.run`, ada.py lines 1173-1266) -/

/-- Observable outcome of one iteration of the supervisor loop:
`failThenRetry` — the iteration raised before the retry-delay reset point
(failed connect or failed session setup) with the stop event clear;
`okThenDie` — the session became active (resetting `retry_delay` to 1) and
later died with the stop event clear; `stopDuringFailure` — the iteration
raised with the stop event set; `okThenStop` — the session became active and
the operator requested a stop. -/
inductive SupervisorOutcome where
  | failThenRetry
  | okThenDie
  | stopDuringFailure
  | okThenStop
deriving Repr, DecidableEq

/-- Effect of one iteration on the retry delay: the emitted backoff sleeps and
the new delay (`retry_delay = min(retry_delay * 2, 10)` after each sleep), or
`none` when the loop exits. -/
def backoffStep (d : Nat) : SupervisorOutcome → Option (List Nat × Nat)
  | SupervisorOutcome.failThenRetry => some ([d], min (d * 2) 10)
  | SupervisorOutcome.okThenDie => some ([1], min (1 * 2) 10)
  | SupervisorOutcome.stopDuringFailure => none
  | SupervisorOutcome.okThenStop => none

/-- The sequence of backoff sleeps the supervisor performs over a run of
iteration outcomes, starting from retry delay `d` (initially 1). -/
def supervisorSleeps (d : Nat) : List SupervisorOutcome → List Nat
  | [] => []
  | o :: os =>
    match backoffStep d o with
    | none => []
    | some (ss, d1) => ss ++ supervisorSleeps d1 os

/-! ## Concrete inputs used to instantiate the theorems -/

def reqA : String := "req-a"
def reqB : String := "req-b"
def callId1 : String := "call-1"
def callId2 : String := "call-2"
def agentBoomMsg : String := "kasa agent unreachable"
def localOkText : String := "ok"

def pendingEmpty : Pending := fun _ => none
def pendingDemo : Pending := fun x => if x = reqA then some { result := none } else none
def pendingDoneDemo : Pending :=
  fun x => if x = reqA then some { result := some true } else none

def envDenyDemo : DispatchEnv :=
  { permissions := fun _ => none, onToolConfirmation := true, newRequestId := reqA,
    decision := fun _ => false, agent := fun _ => Except.error agentBoomMsg,
    localResult := fun _ => localOkText }

def envNoCallbackDemo : DispatchEnv :=
  { permissions := fun _ => none, onToolConfirmation := false, newRequestId := reqA,
    decision := fun _ => true, agent := fun _ => Except.ok localOkText,
    localResult := fun _ => localOkText }

def envAgentRaisesDemo : DispatchEnv :=
  { permissions := fun _ => some false, onToolConfirmation := true, newRequestId := reqA,
    decision := fun _ => true, agent := fun _ => Except.error agentBoomMsg,
    localResult := fun _ => localOkText }

def envConfirmRaiseDemo : DispatchEnv :=
  { permissions := fun _ => none, onToolConfirmation := true, newRequestId := reqA,
    decision := fun _ => true, agent := fun _ => Except.error agentBoomMsg,
    localResult := fun _ => localOkText }

def fcControlLightDemo : FunctionCall := { id := callId1, name := toolControlLight }
def fcListProjectsDemo : FunctionCall := { id := callId2, name := toolListProjects }

/-- A `listen_audio` state in mid-utterance: speaking, no silence timer. -/
def speakingState : ListenState :=
  { isSpeaking := true, silenceStart := none, latestImage := none, outQueue := [] }

/-- Two sub-threshold chunks whose timestamps are exactly `SILENCE_DURATION`
apart: the silence run spans exactly 500 ms. -/
def silence500Run : List (ℚ × List Int) := [((0 : ℚ), [0]), ((1/2 : ℚ), [0])]

def ssDemo : List Str := [['h'], ['h', 'i']]
def tDemo : Str := ['h', 'i']
def recvQueued : RecvState := { recvInit with audioInQueue := [1, 2, 3] }

/-! ## Theorems: confirmation broker -/

/-- C5: resolving an unknown request id, or one whose future is already
resolved, is a no-op that raises no exception and changes no pending future;
resolving a pending unresolved id sets exactly that future to the given
decision and leaves every other entry untouched. -/
theorem confirmation_resolution_safe :
    (∀ (p : Pending) (rid : String) (c : Bool),
       p rid = none → resolveToolConfirmation p rid c = Except.ok p) ∧
    (∀ (p : Pending) (rid : String) (c : Bool) (f : PyFuture),
       p rid = some f → futureDone f = true →
       resolveToolConfirmation p rid c = Except.ok p) ∧
    (∀ (p : Pending) (rid : String) (c : Bool) (f : PyFuture),
       p rid = some f → futureDone f = false →
       ∃ p1, resolveToolConfirmation p rid c = Except.ok p1 ∧
         p1 rid = some { result := some c } ∧
         ∀ j, j ≠ rid → p1 j = p j) := by
  refine ⟨?_, ?_, ?_⟩
  · intro p rid c h
    simp [resolveToolConfirmation, h]
  · intro p rid c f h hd
    simp [resolveToolConfirmation, h, hd]
  · intro p rid c f h hd
    refine ⟨fun x => if x = rid then some { result := some c } else p x, ?_, ?_, ?_⟩
    · simp [resolveToolConfirmation, h, hd, futureSetResult]
    · simp
    · intro j hj
      simp [hj]

/-- Witness instantiating C5 at concrete pending maps. -/
theorem confirmation_resolution_safe_witness :
    resolveToolConfirmation pendingDemo reqB true = Except.ok pendingDemo ∧
    resolveToolConfirmation pendingDoneDemo reqA false = Except.ok pendingDoneDemo ∧
    (∃ p1, resolveToolConfirmation pendingDemo reqA true = Except.ok p1 ∧
      p1 reqA = some { result := some true } ∧
      ∀ j, j ≠ reqA → p1 j = pendingDemo j) :=
  ⟨confirmation_resolution_safe.1 pendingDemo reqB true (by simp [pendingDemo, reqA, reqB]),
   confirmation_resolution_safe.2.1 pendingDoneDemo reqA false { result := some true }
     (by simp [pendingDoneDemo]) (by simp [futureDone]),
   confirmation_resolution_safe.2.2 pendingDemo reqA true { result := none }
     (by simp [pendingDemo]) (by simp [futureDone])⟩

/-! ## Theorems: tool dispatch -/

/-- C6: a gated tool call whose confirmation future is resolved with a denial
produces exactly the synthesized denial function-result, never reaches the
execution section, raises no exception, and leaves the pending map without
the request entry. -/
theorem denial_skips_execution :
    ∀ (env : DispatchEnv) (pending : Pending) (fc : FunctionCall),
      fc.name ∈ recognizedTools →
      (env.permissions fc.name).getD true = true →
      env.onToolConfirmation = true →
      env.decision env.newRequestId = false →
      processFunctionCall env pending fc =
        Except.ok ([{ id := fc.id, name := fc.name, result := denialResultText }],
          fun x => if x = env.newRequestId then none else pending x, false) := by
  intro env pending fc hmem hperm hcb hdec
  simp [processFunctionCall, hmem, hperm, hcb, hdec]

/-- Witness instantiating C6: denied `control_light` call. -/
theorem denial_skips_execution_witness :
    processFunctionCall envDenyDemo pendingEmpty fcControlLightDemo =
      Except.ok
        ([{ id := fcControlLightDemo.id, name := fcControlLightDemo.name, result := denialResultText }],
         fun x => if x = envDenyDemo.newRequestId then none else pendingEmpty x, false) :=
  denial_skips_execution envDenyDemo pendingEmpty fcControlLightDemo
    (by simp [fcControlLightDemo, recognizedTools])
    (by simp [envDenyDemo])
    (by simp [envDenyDemo])
    (by simp [envDenyDemo])

/-- C10: with confirmation required (permission entry absent or `True`) and no
`on_tool_confirmation` callback configured, the confirmation branch reads the
never-assigned local `request_id`: the dispatch raises a `NameError` that is
never an ok-result, and the whole batch (hence the receive loop) terminates
with that error, so the tool is never executed without confirmation. -/
theorem missing_callback_raises_name_error :
    ∀ (env : DispatchEnv) (pending : Pending) (fc : FunctionCall),
      fc.name ∈ recognizedTools →
      (env.permissions fc.name).getD true = true →
      env.onToolConfirmation = false →
      processFunctionCall env pending fc = Except.error nameErrorRequestId ∧
      (∀ r, processFunctionCall env pending fc ≠ Except.ok r) ∧
      (∀ (acc : List FunctionResponse) (fcs : List FunctionCall),
        processBatch env pending acc (fc :: fcs) = Except.error nameErrorRequestId) := by
  intro env pending fc hmem hperm hcb
  have h1 : processFunctionCall env pending fc = Except.error nameErrorRequestId := by
    simp [processFunctionCall, hmem, hperm, hcb]
  refine ⟨h1, ?_, ?_⟩
  · intro r hr
    rw [h1] at hr
    cases hr
  · intro acc fcs
    simp [processBatch, h1]

/-- Witness instantiating C10: `control_light` with no callback configured. -/
theorem missing_callback_raises_name_error_witness :
    processFunctionCall envNoCallbackDemo pendingEmpty fcControlLightDemo =
      Except.error nameErrorRequestId ∧
    processBatch envNoCallbackDemo pendingEmpty [] [fcControlLightDemo, fcListProjectsDemo] =
      Except.error nameErrorRequestId :=
  have h := missing_callback_raises_name_error envNoCallbackDemo pendingEmpty fcControlLightDemo
    (by simp [fcControlLightDemo, recognizedTools])
    (by simp [envNoCallbackDemo])
    (by simp [envNoCallbackDemo])
  ⟨h.1, h.2.2 [] [fcListProjectsDemo]⟩

/-! ## Theorems: supervisor backoff -/

/-- Capping at 10 commutes with doubling: used to fold the backoff recurrence
into a closed form. -/
theorem min_cap_mul (x y : Nat) : min (min x 10 * y) 10 = min (x * y) 10 := by
  rcases le_total x 10 with h | h
  · rw [min_eq_left h]
  · rw [min_eq_right h]
    rcases Nat.eq_zero_or_pos y with hy | hy
    · subst hy; simp
    · have h10 : 10 ≤ 10 * y := Nat.le_mul_of_pos_right 10 hy
      have hx : 10 ≤ x * y := le_trans h10 (Nat.mul_le_mul_right y h)
      rw [min_eq_right h10, min_eq_right hx]

/-- Closed form of the retry sleeps over a run of consecutive failures. -/
theorem supervisorSleeps_fail_closed (k : Nat) : ∀ d : Nat, d ≤ 10 →
    supervisorSleeps d (List.replicate k SupervisorOutcome.failThenRetry) =
      (List.range k).map (fun i => min (d * 2 ^ i) 10) := by
  induction k with
  | zero => intro d _; simp [supervisorSleeps]
  | succ k ih =>
    intro d hd
    rw [List.replicate_succ, List.range_succ_eq_map]
    simp only [supervisorSleeps, backoffStep, List.map_cons, List.map_map]
    rw [ih (min (d * 2) 10) (min_le_right _ _)]
    have htail : ((List.range k).map (fun i => min (min (d * 2) 10 * 2 ^ i) 10)) =
        (List.range k).map ((fun i => min (d * 2 ^ i) 10) ∘ Nat.succ) := by
      apply List.map_congr_left
      intro i _
      show min (min (d * 2) 10 * 2 ^ i) 10 = min (d * 2 ^ (i + 1)) 10
      rw [min_cap_mul]
      congr 1
      ring
    rw [htail]
    have hhead : min (d * 2 ^ 0) 10 = d := by
      simp [Nat.min_eq_left hd]
    rw [hhead]
    rfl

/-- C8: starting from a fresh delay of 1 s, the sleep before retry attempt
k+1 after k consecutive failures is min(2^(k-1), 10) seconds (element k-1 of
the emitted sleep list, which is min(2^i, 10) at index i); a successful
connect resets the delay so the next sleep is 1 s again; and an iteration
that ends with the stop event set exits without any retry sleep. -/
theorem backoff_schedule :
    (∀ k : Nat,
       supervisorSleeps 1 (List.replicate k SupervisorOutcome.failThenRetry) =
         (List.range k).map (fun i => min (2 ^ i) 10)) ∧
    (∀ (d : Nat) (os : List SupervisorOutcome),
       supervisorSleeps d (SupervisorOutcome.okThenDie :: os) =
         1 :: supervisorSleeps 2 os) ∧
    (∀ (d : Nat) (os : List SupervisorOutcome),
       supervisorSleeps d (SupervisorOutcome.stopDuringFailure :: os) = []) ∧
    (∀ (d : Nat) (os : List SupervisorOutcome),
       supervisorSleeps d (SupervisorOutcome.okThenStop :: os) = []) := by
  refine ⟨?_, ?_, ?_, ?_⟩
  · intro k
    have h := supervisorSleeps_fail_closed k 1 (by norm_num)
    simpa using h
  · intro d os
    simp [supervisorSleeps, backoffStep]
  · intro d os
    simp [supervisorSleeps, backoffStep]
  · intro d os
    simp [supervisorSleeps, backoffStep]

/-! ## Theorems: reconnect context replay -/

/-- Dropping strictly fewer elements than the length preserves the last
element. -/
theorem getLast_drop_eq {α : Type} (l : List α) (k : Nat) (h : k < l.length) :
    (l.drop k).getLast? = l.getLast? := by
  induction l generalizing k with
  | nil => simp at h
  | cons a t ih =>
    cases k with
    | zero => rfl
    | succ k =>
      simp only [List.length_cons, Nat.succ_lt_succ_iff] at h
      rw [List.drop_succ_cons, ih k h]
      obtain ⟨b, t2, rfl⟩ : ∃ b t2, t = b :: t2 := by
        cases t with
        | nil => simp at h
        | cons b t2 => exact ⟨b, t2, rfl⟩
      rw [List.getLast?_cons_cons]

/-- C7: on a reconnect with K well-formed persisted chat entries, the
supervisor sends exactly one message, with end_of_turn true, built from
exactly min(K, 10) entries: the chronologically ordered suffix of the log,
whose last element is the most recent entry. -/
theorem reconnect_context_replay :
    ∀ entries : List ChatEntry,
      (reconnectMessages (getRecentChatHistory (entries.map some) 10)).length = 1 ∧
      (reconnectMessages (getRecentChatHistory (entries.map some) 10)) =
        [(reconnectContextMessage (getRecentChatHistory (entries.map some) 10), true)] ∧
      (getRecentChatHistory (entries.map some) 10).length = min entries.length 10 ∧
      getRecentChatHistory (entries.map some) 10 =
        entries.drop (entries.length - 10) ∧
      (getRecentChatHistory (entries.map some) 10).getLast? = entries.getLast? := by
  intro entries
  have hdrop : getRecentChatHistory (entries.map some) 10 =
      entries.drop (entries.length - 10) := by
    unfold getRecentChatHistory
    rw [List.length_map, ← List.map_drop, List.filterMap_map]
    simp [List.filterMap_some]
  refine ⟨rfl, rfl, ?_, hdrop, ?_⟩
  · rw [hdrop, List.length_drop]
    omega
  · rw [hdrop]
    rcases Nat.lt_or_ge entries.length 1 with h0 | h0
    · interval_cases h : entries.length
      · have : entries = [] := List.length_eq_zero.mp h
        subst this
        simp
    · exact getLast_drop_eq entries (entries.length - 10) (by omega)

/-! ## Theorems: transcript deltas -/

theorem getLastD_cons_eq {α : Type} (a : α) (l : List α) (d : α) :
    (a :: l).getLastD d = l.getLastD a := by
  cases l <;> simp [List.getLastD]

/-- A strict-prefix successor leaves a nonempty delta; a non-prefix successor
yields itself, nonempty by assumption. -/
theorem computeDelta_ne_nil (s : RecvState) (t : Str) (h0 : t ≠ [])
    (h1 : t ≠ s.lastInput) : computeDelta s.lastInput t ≠ [] := by
  unfold computeDelta
  split
  · intro hd
    have hle := List.drop_eq_nil_iff.mp hd
    have hlen : s.lastInput.length ≤ t.length := by
      have hpre : s.lastInput <+: t := by assumption
      exact hpre.length_le
    have hpre : s.lastInput <+: t := by assumption
    exact h1 (hpre.eq_of_length (le_antisymm hlen hle)).symm
  · exact h0

theorem computeDeltaOut_ne_nil (s : RecvState) (t : Str) (h0 : t ≠ [])
    (h1 : t ≠ s.lastOutput) : computeDelta s.lastOutput t ≠ [] := by
  unfold computeDelta
  split
  · intro hd
    have hle := List.drop_eq_nil_iff.mp hd
    have hpre : s.lastOutput <+: t := by assumption
    exact h1 (hpre.eq_of_length (le_antisymm hpre.length_le hle)).symm
  · exact h0

/-- Duplicate cumulative transcript: the input branch is a no-op. -/
theorem processInput_eq_last (s : RecvState) (t : Str) (h : t = s.lastInput) :
    processInputTranscription s t = (s, none) := by
  by_cases h0 : t = [] <;> simp [processInputTranscription, h0, h]

theorem processOutput_eq_last (s : RecvState) (t : Str) (h : t = s.lastOutput) :
    processOutputTranscription s t = (s, none) := by
  by_cases h0 : t = [] <;> simp [processOutputTranscription, h0, h]

/-- A genuinely new transcript: the last-seen text becomes the new cumulative
text and the computed delta is emitted. -/
theorem processInput_new (s : RecvState) (t : Str) (h0 : t ≠ [])
    (h1 : t ≠ s.lastInput) :
    (processInputTranscription s t).1.lastInput = t ∧
    (processInputTranscription s t).2 = some (computeDelta s.lastInput t) := by
  have h2 := computeDelta_ne_nil s t h0 h1
  simp only [processInputTranscription, if_neg h0, if_neg h1, if_neg h2]
  constructor
  · split
    · split <;> rfl
    · rfl
  · trivial

theorem processOutput_new (s : RecvState) (t : Str) (h0 : t ≠ [])
    (h1 : t ≠ s.lastOutput) :
    (processOutputTranscription s t).1.lastOutput = t ∧
    (processOutputTranscription s t).2 = some (computeDelta s.lastOutput t) := by
  have h2 := computeDeltaOut_ne_nil s t h0 h1
  simp only [processOutputTranscription, if_neg h0, if_neg h1, if_neg h2]
  constructor
  · split
    · split <;> rfl
    · rfl
  · trivial

/-- Invariant of the input channel over a chain of cumulative transcripts:
the previously seen text followed by the emitted deltas reconstructs the
final cumulative text, which is the last transcript of the chain. -/
theorem processInputSeq_invariant : ∀ (ss : List Str) (s : RecvState),
    List.Chain (· <+: ·) s.lastInput ss →
    s.lastInput ++ (processInputSeq s ss).2.flatten = (processInputSeq s ss).1.lastInput ∧
    (processInputSeq s ss).1.lastInput = ss.getLastD s.lastInput := by
  intro ss
  induction ss with
  | nil =>
    intro s _
    simp [processInputSeq]
  | cons t ts ih =>
    intro s hch
    rw [List.chain_cons] at hch
    obtain ⟨hp, hch2⟩ := hch
    by_cases heq : t = s.lastInput
    · have hpe : processInputTranscription s t = (s, none) := processInput_eq_last s t heq
      have hseq : processInputSeq s (t :: ts) =
          ((processInputSeq s ts).1, (processInputSeq s ts).2) := by
        simp [processInputSeq, hpe]
      have hch3 : List.Chain (· <+: ·) s.lastInput ts := heq ▸ hch2
      have hr := ih s hch3
      rw [hseq, getLastD_cons_eq]
      exact ⟨hr.1, heq ▸ hr.2⟩
    · have h0 : t ≠ [] := by
        intro he
        apply heq
        subst he
        exact (List.prefix_nil.mp hp).symm
      have hnew := processInput_new s t h0 heq
      have hch3 : List.Chain (· <+: ·) (processInputTranscription s t).1.lastInput ts := by
        rw [hnew.1]; exact hch2
      have hr := ih (processInputTranscription s t).1 hch3
      have hseq : processInputSeq s (t :: ts) =
          ((processInputSeq (processInputTranscription s t).1 ts).1,
           computeDelta s.lastInput t ::
             (processInputSeq (processInputTranscription s t).1 ts).2) := by
        simp [processInputSeq, hnew.2]
      rw [hseq, getLastD_cons_eq]
      constructor
      · have hjoin : s.lastInput ++ computeDelta s.lastInput t = t := by
          unfold computeDelta
          rw [if_pos hp]
          exact List.prefix_iff_eq_append.mp hp
        calc s.lastInput ++ (computeDelta s.lastInput t ::
              (processInputSeq (processInputTranscription s t).1 ts).2).flatten
            = (s.lastInput ++ computeDelta s.lastInput t) ++
              (processInputSeq (processInputTranscription s t).1 ts).2.flatten := by
              rw [List.flatten_cons, List.append_assoc]
          _ = (processInputTranscription s t).1.lastInput ++
              (processInputSeq (processInputTranscription s t).1 ts).2.flatten := by
              rw [hjoin, hnew.1]
          _ = (processInputSeq (processInputTranscription s t).1 ts).1.lastInput := hr.1
      · rw [hr.2, hnew.1]

/-- Invariant of the output channel over a chain of cumulative transcripts. -/
theorem processOutputSeq_invariant : ∀ (ss : List Str) (s : RecvState),
    List.Chain (· <+: ·) s.lastOutput ss →
    s.lastOutput ++ (processOutputSeq s ss).2.flatten = (processOutputSeq s ss).1.lastOutput ∧
    (processOutputSeq s ss).1.lastOutput = ss.getLastD s.lastOutput := by
  intro ss
  induction ss with
  | nil =>
    intro s _
    simp [processOutputSeq]
  | cons t ts ih =>
    intro s hch
    rw [List.chain_cons] at hch
    obtain ⟨hp, hch2⟩ := hch
    by_cases heq : t = s.lastOutput
    · have hpe : processOutputTranscription s t = (s, none) := processOutput_eq_last s t heq
      have hseq : processOutputSeq s (t :: ts) =
          ((processOutputSeq s ts).1, (processOutputSeq s ts).2) := by
        simp [processOutputSeq, hpe]
      have hch3 : List.Chain (· <+: ·) s.lastOutput ts := heq ▸ hch2
      have hr := ih s hch3
      rw [hseq, getLastD_cons_eq]
      exact ⟨hr.1, heq ▸ hr.2⟩
    · have h0 : t ≠ [] := by
        intro he
        apply heq
        subst he
        exact (List.prefix_nil.mp hp).symm
      have hnew := processOutput_new s t h0 heq
      have hch3 : List.Chain (· <+: ·) (processOutputTranscription s t).1.lastOutput ts := by
        rw [hnew.1]; exact hch2
      have hr := ih (processOutputTranscription s t).1 hch3
      have hseq : processOutputSeq s (t :: ts) =
          ((processOutputSeq (processOutputTranscription s t).1 ts).1,
           computeDelta s.lastOutput t ::
             (processOutputSeq (processOutputTranscription s t).1 ts).2) := by
        simp [processOutputSeq, hnew.2]
      rw [hseq, getLastD_cons_eq]
      constructor
      · have hjoin : s.lastOutput ++ computeDelta s.lastOutput t = t := by
          unfold computeDelta
          rw [if_pos hp]
          exact List.prefix_iff_eq_append.mp hp
        calc s.lastOutput ++ (computeDelta s.lastOutput t ::
              (processOutputSeq (processOutputTranscription s t).1 ts).2).flatten
            = (s.lastOutput ++ computeDelta s.lastOutput t) ++
              (processOutputSeq (processOutputTranscription s t).1 ts).2.flatten := by
              rw [List.flatten_cons, List.append_assoc]
          _ = (processOutputTranscription s t).1.lastOutput ++
              (processOutputSeq (processOutputTranscription s t).1 ts).2.flatten := by
              rw [hjoin, hnew.1]
          _ = (processOutputSeq (processOutputTranscription s t).1 ts).1.lastOutput := hr.1
      · rw [hr.2, hnew.1]

/-- C1: over a chain of nonempty cumulative transcripts, each starting with
its predecessor, the emitted deltas concatenate to the final transcript (so
no character is duplicated across emissions); a transcript equal to the
previous one emits nothing; and a nonempty transcript that does not start
with the previous one is emitted in full as the delta — on either channel. -/
theorem transcript_delta_correctness :
    (∀ (s0 : RecvState) (ss : List Str), s0.lastInput = [] →
       List.Chain (· <+: ·) [] ss →
       (processInputSeq s0 ss).2.flatten = ss.getLastD []) ∧
    (∀ (s0 : RecvState) (ss : List Str), s0.lastOutput = [] →
       List.Chain (· <+: ·) [] ss →
       (processOutputSeq s0 ss).2.flatten = ss.getLastD []) ∧
    (∀ (s : RecvState) (t : Str), t = s.lastInput →
       (processInputTranscription s t).2 = none) ∧
    (∀ (s : RecvState) (t : Str), t = s.lastOutput →
       (processOutputTranscription s t).2 = none) ∧
    (∀ (s : RecvState) (t : Str), t ≠ [] → ¬ s.lastInput <+: t →
       (processInputTranscription s t).2 = some t) ∧
    (∀ (s : RecvState) (t : Str), t ≠ [] → ¬ s.lastOutput <+: t →
       (processOutputTranscription s t).2 = some t) := by
  refine ⟨?_, ?_, ?_, ?_, ?_, ?_⟩
  · intro s0 ss hli hch
    have h := processInputSeq_invariant ss s0 (by rw [hli]; exact hch)
    have h1 := h.1
    rw [hli] at h1
    rw [List.nil_append] at h1
    rw [h1, h.2, hli]
  · intro s0 ss hlo hch
    have h := processOutputSeq_invariant ss s0 (by rw [hlo]; exact hch)
    have h1 := h.1
    rw [hlo] at h1
    rw [List.nil_append] at h1
    rw [h1, h.2, hlo]
  · intro s t h
    rw [processInput_eq_last s t h]
  · intro s t h
    rw [processOutput_eq_last s t h]
  · intro s t h0 hnp
    have h1 : t ≠ s.lastInput := by
      intro he
      exact hnp (he ▸ List.prefix_refl t)
    have h := (processInput_new s t h0 h1).2
    rw [h]
    unfold computeDelta
    rw [if_neg hnp]
  · intro s t h0 hnp
    have h1 : t ≠ s.lastOutput := by
      intro he
      exact hnp (he ▸ List.prefix_refl t)
    have h := (processOutput_new s t h0 h1).2
    rw [h]
    unfold computeDelta
    rw [if_neg hnp]

/-- Witness instantiating C1 on both channels with a two-step chain and a
non-prefix reset. -/
theorem transcript_delta_correctness_witness :
    (processInputSeq recvInit ssDemo).2.flatten = ssDemo.getLastD [] ∧
    (processOutputSeq recvInit ssDemo).2.flatten = ssDemo.getLastD [] ∧
    (processInputTranscription recvInit []).2 = none ∧
    (processInputTranscription { recvInit with lastInput := tDemo } ['a']).2 = some ['a'] :=
  ⟨transcript_delta_correctness.1 recvInit ssDemo rfl
     (List.Chain.cons (by decide) (List.Chain.cons (by decide) List.Chain.nil)),
   transcript_delta_correctness.2.1 recvInit ssDemo rfl
     (List.Chain.cons (by decide) (List.Chain.cons (by decide) List.Chain.nil)),
   transcript_delta_correctness.2.2.1 recvInit [] rfl,
   transcript_delta_correctness.2.2.2.2.1 { recvInit with lastInput := tDemo } ['a']
     (by decide) (by decide)⟩

/-- Jumping into the input branch with a fresh nonempty delta clears the
queue in every sender case. -/
theorem processInput_clears_queue (s : RecvState) (t : Str) (h0 : t ≠ [])
    (h1 : t ≠ s.lastInput) (h2 : computeDelta s.lastInput t ≠ []) :
    (processInputTranscription s t).1.audioInQueue = [] := by
  simp only [processInputTranscription, if_neg h0, if_neg h1, if_neg h2]
  split
  · split <;> rfl
  · rfl

/-- The output branch never touches the playback queue. -/
theorem processOutput_preserves_queue (s : RecvState) (t : Str) :
    (processOutputTranscription s t).1.audioInQueue = s.audioInQueue := by
  by_cases h0 : t = []
  · simp [processOutputTranscription, h0]
  · by_cases h1 : t = s.lastOutput
    · simp [processOutputTranscription, h0, h1]
    · by_cases h2 : computeDelta s.lastOutput t = []
      · simp [processOutputTranscription, h0, h1, h2]
      · simp only [processOutputTranscription, if_neg h0, if_neg h1, if_neg h2]
        split
        · split <;> rfl
        · rfl

/-- C2: a new, non-duplicate, non-empty input-transcript delta empties the
playback queue regardless of how many chunks were queued; output-channel
deltas leave the queue untouched. -/
theorem barge_in_clears_playback :
    (∀ (s : RecvState) (t : Str),
       t ≠ [] → t ≠ s.lastInput → computeDelta s.lastInput t ≠ [] →
       (processInputTranscription s t).1.audioInQueue = []) ∧
    (∀ (s : RecvState) (t : Str),
       (processOutputTranscription s t).1.audioInQueue = s.audioInQueue) :=
  ⟨processInput_clears_queue, processOutput_preserves_queue⟩

/-- Witness instantiating C2: three queued chunks, fresh input delta. -/
theorem barge_in_clears_playback_witness :
    (processInputTranscription recvQueued tDemo).1.audioInQueue = [] ∧
    (processOutputTranscription recvQueued tDemo).1.audioInQueue =
      recvQueued.audioInQueue :=
  ⟨barge_in_clears_playback.1 recvQueued tDemo (by decide)
     (by decide)
     (by decide),
   barge_in_clears_playback.2 recvQueued tDemo⟩

/-! ## Theorems: voice-activity detection -/

theorem rms_zero_chunk : rms [(0 : Int)] = 0 := by
  simp [rms]

theorem rms_loud_chunk : rms [(900 : Int)] = 900 := by
  unfold rms
  norm_num
  rw [show (Int.toNat 810000 : ℕ) = 900 * 900 by rfl]
  exact Nat.sqrt_eq 900

theorem listenStep_above (s : ListenState) (t : ℚ) (d : List Int)
    (ha : vadThreshold < rms d) :
    (listenStep s t d).isSpeaking = true ∧ (listenStep s t d).silenceStart = none := by
  simp only [listenStep, if_pos ha]
  by_cases hs : s.isSpeaking = false
  · simp only [hs]
    cases him : s.latestImage <;> simp [him]
  · simp only [if_neg hs]
    simp only [Bool.not_eq_false] at hs
    simp [hs]

theorem listenStep_below_notSpeaking (s : ListenState) (t : ℚ) (d : List Int)
    (ha : ¬ vadThreshold < rms d) (hs : s.isSpeaking = false) :
    (listenStep s t d).isSpeaking = false ∧
    (listenStep s t d).silenceStart = s.silenceStart := by
  simp [listenStep, if_neg ha, hs]

theorem listenStep_below_speaking_none (s : ListenState) (t : ℚ) (d : List Int)
    (ha : ¬ vadThreshold < rms d) (hs : s.isSpeaking = true)
    (h0 : s.silenceStart = none) :
    (listenStep s t d).isSpeaking = true ∧
    (listenStep s t d).silenceStart = some t := by
  simp [listenStep, if_neg ha, hs, h0]

theorem listenStep_below_speaking_short (s : ListenState) (t t0 : ℚ) (d : List Int)
    (ha : ¬ vadThreshold < rms d) (hs : s.isSpeaking = true)
    (h0 : s.silenceStart = some t0) (hshort : ¬ silenceDuration < t - t0) :
    (listenStep s t d).isSpeaking = true ∧
    (listenStep s t d).silenceStart = some t0 := by
  simp [listenStep, if_neg ha, hs, h0, hshort]

theorem listenStep_below_speaking_long (s : ListenState) (t t0 : ℚ) (d : List Int)
    (ha : ¬ vadThreshold < rms d) (hs : s.isSpeaking = true)
    (h0 : s.silenceStart = some t0) (hlong : silenceDuration < t - t0) :
    (listenStep s t d).isSpeaking = false ∧
    (listenStep s t d).silenceStart = none := by
  simp [listenStep, if_neg ha, hs, h0, hlong]

theorem listenRun_nil (s : ListenState) : listenRun s [] = s := rfl

theorem listenRun_cons (s : ListenState) (c : ℚ × List Int) (cs : List (ℚ × List Int)) :
    listenRun s (c :: cs) = listenRun (listenStep s c.1 c.2) cs := rfl

theorem toggleOffCount_append (l1 l2 : List (ℚ × List Int)) : ∀ s : ListenState,
    toggleOffCount s (l1 ++ l2) =
      toggleOffCount s l1 + toggleOffCount (listenRun s l1) l2 := by
  induction l1 with
  | nil => intro s; simp [toggleOffCount, listenRun_nil]
  | cons c cs ih =>
    intro s
    rw [List.cons_append]
    simp only [toggleOffCount]
    rw [ih (listenStep s c.1 c.2), listenRun_cons]
    omega

/-- Processing only sub-threshold chunks while not speaking changes no VAD
state and toggles nothing. -/
theorem count_below_notSpeaking : ∀ (cs : List (ℚ × List Int)) (s : ListenState),
    s.isSpeaking = false → (∀ c ∈ cs, rms c.2 ≤ vadThreshold) →
    toggleOffCount s cs = 0 ∧ (listenRun s cs).isSpeaking = false ∧
    (listenRun s cs).silenceStart = s.silenceStart := by
  intro cs
  induction cs with
  | nil => intro s hs _; exact ⟨rfl, hs, rfl⟩
  | cons c cs ih =>
    intro s hs hbelow
    have ha : ¬ vadThreshold < rms c.2 := by
      have := hbelow c (List.mem_cons_self c cs)
      omega
    have hstep := listenStep_below_notSpeaking s c.1 c.2 ha hs
    have hrest := ih (listenStep s c.1 c.2) hstep.1
      (fun x hx => hbelow x (List.mem_cons_of_mem c hx))
    refine ⟨?_, ?_, ?_⟩
    · simp only [toggleOffCount]
      rw [hrest.1]
      simp [hs]
    · rw [listenRun_cons]; exact hrest.2.1
    · rw [listenRun_cons, hrest.2.2, hstep.2]

/-- With the silence timer armed at `t0`, sub-threshold chunks all arriving at
most `SILENCE_DURATION` after `t0` keep the detector speaking. -/
theorem count_below_armed_quiet : ∀ (cs : List (ℚ × List Int)) (s : ListenState) (t0 : ℚ),
    s.isSpeaking = true → s.silenceStart = some t0 →
    (∀ c ∈ cs, rms c.2 ≤ vadThreshold) →
    (∀ c ∈ cs, ¬ silenceDuration < c.1 - t0) →
    toggleOffCount s cs = 0 ∧ (listenRun s cs).isSpeaking = true ∧
    (listenRun s cs).silenceStart = some t0 := by
  intro cs
  induction cs with
  | nil => intro s t0 hs h0 _ _; exact ⟨rfl, hs, h0⟩
  | cons c cs ih =>
    intro s t0 hs h0 hbelow hshort
    have ha : ¬ vadThreshold < rms c.2 := by
      have := hbelow c (List.mem_cons_self c cs)
      omega
    have hstep := listenStep_below_speaking_short s c.1 t0 c.2 ha hs h0
      (hshort c (List.mem_cons_self c cs))
    have hrest := ih (listenStep s c.1 c.2) t0 hstep.1 hstep.2
      (fun x hx => hbelow x (List.mem_cons_of_mem c hx))
      (fun x hx => hshort x (List.mem_cons_of_mem c hx))
    refine ⟨?_, ?_, ?_⟩
    · simp only [toggleOffCount]
      rw [hrest.1]
      simp [hstep.1]
    · rw [listenRun_cons]; exact hrest.2.1
    · rw [listenRun_cons]; exact hrest.2.2

/-- With the silence timer armed at `t0`, a sub-threshold run containing some
chunk strictly more than `SILENCE_DURATION` after `t0` toggles speech off
exactly once. -/
theorem count_below_armed_fires : ∀ (cs : List (ℚ × List Int)) (s : ListenState) (t0 : ℚ),
    s.isSpeaking = true → s.silenceStart = some t0 →
    (∀ c ∈ cs, rms c.2 ≤ vadThreshold) →
    (∃ c ∈ cs, silenceDuration < c.1 - t0) →
    toggleOffCount s cs = 1 ∧ (listenRun s cs).isSpeaking = false := by
  intro cs
  induction cs with
  | nil =>
    intro s t0 _ _ _ hex
    obtain ⟨c, hc, _⟩ := hex
    exact absurd hc (List.not_mem_nil c)
  | cons c cs ih =>
    intro s t0 hs h0 hbelow hex
    have ha : ¬ vadThreshold < rms c.2 := by
      have := hbelow c (List.mem_cons_self c cs)
      omega
    by_cases hfire : silenceDuration < c.1 - t0
    · have hstep := listenStep_below_speaking_long s c.1 t0 c.2 ha hs h0 hfire
      have hrest := count_below_notSpeaking cs (listenStep s c.1 c.2) hstep.1
        (fun x hx => hbelow x (List.mem_cons_of_mem c hx))
      refine ⟨?_, ?_⟩
      · simp only [toggleOffCount]
        rw [hrest.1]
        simp [hs, hstep.1]
      · rw [listenRun_cons]; exact hrest.2.1
    · have hstep := listenStep_below_speaking_short s c.1 t0 c.2 ha hs h0 hfire
      have hex2 : ∃ x ∈ cs, silenceDuration < x.1 - t0 := by
        obtain ⟨x, hx, hxt⟩ := hex
        rcases List.mem_cons.mp hx with hx1 | hx2
        · exact absurd (hx1 ▸ hxt) hfire
        · exact ⟨x, hx2, hxt⟩
      have hrest := ih (listenStep s c.1 c.2) t0 hstep.1 hstep.2
        (fun x hx => hbelow x (List.mem_cons_of_mem c hx)) hex2
      refine ⟨?_, ?_⟩
      · simp only [toggleOffCount]
        rw [hrest.1]
        simp [hstep.1]
      · rw [listenRun_cons]; exact hrest.2

/-- An above-threshold block never toggles speech off. -/
theorem count_blockAbove : ∀ (b : List (ℚ × List Int)) (s : ListenState),
    blockAbove b → toggleOffCount s b = 0 := by
  intro b
  induction b with
  | nil => intro s _; rfl
  | cons c cs ih =>
    intro s hab
    have ha : vadThreshold < rms c.2 := hab c (List.mem_cons_self c cs)
    have hstep := listenStep_above s c.1 c.2 ha
    simp only [toggleOffCount]
    rw [ih (listenStep s c.1 c.2) (fun x hx => hab x (List.mem_cons_of_mem c hx))]
    simp [hstep.1]

/-- A nonempty above-threshold block leaves the silence timer cancelled. -/
theorem silence_after_blockAbove : ∀ (b : List (ℚ × List Int)) (s : ListenState),
    blockAbove b → b ≠ [] → (listenRun s b).silenceStart = none := by
  intro b
  induction b with
  | nil => intro s _ hne; exact absurd rfl hne
  | cons c cs ih =>
    intro s hab _
    have ha : vadThreshold < rms c.2 := hab c (List.mem_cons_self c cs)
    have hstep := listenStep_above s c.1 c.2 ha
    rw [listenRun_cons]
    by_cases hcs : cs = []
    · subst hcs
      rw [listenRun_nil]
      exact hstep.2
    · exact ih (listenStep s c.1 c.2) (fun x hx => hab x (List.mem_cons_of_mem c hx)) hcs

/-- A sub-threshold run that spans less than `SILENCE_DURATION` never toggles
speech off when entered with the silence timer unarmed. -/
theorem count_blockBelowShort : ∀ (b : List (ℚ × List Int)) (s : ListenState),
    blockBelowShort b → s.silenceStart = none → toggleOffCount s b = 0 := by
  intro b s hb h0
  cases b with
  | nil => rfl
  | cons c0 rest =>
    have hbelow : ∀ c ∈ c0 :: rest, rms c.2 ≤ vadThreshold :=
      fun c hc => (hb c hc).1
    by_cases hs : s.isSpeaking = true
    · have ha : ¬ vadThreshold < rms c0.2 := by
        have := hbelow c0 (List.mem_cons_self c0 rest)
        omega
      have hstep := listenStep_below_speaking_none s c0.1 c0.2 ha hs h0
      have hshort : ∀ c ∈ rest, ¬ silenceDuration < c.1 - c0.1 := by
        intro c hc
        have := (hb c (List.mem_cons_of_mem c0 hc)).2
        intro hlt
        linarith
      have hrest := count_below_armed_quiet rest (listenStep s c0.1 c0.2) c0.1
        hstep.1 hstep.2 (fun x hx => hbelow x (List.mem_cons_of_mem c0 hx)) hshort
      simp only [toggleOffCount]
      rw [hrest.1]
      simp [hstep.1]
    · have hs2 : s.isSpeaking = false := by
        revert hs
        cases s.isSpeaking <;> simp
      exact (count_below_notSpeaking (c0 :: rest) s hs2 hbelow).1

/-- Over alternating runs, each sub-threshold run spanning less than
`SILENCE_DURATION`, speech is never toggled off; the flag records whether the
next run is above-threshold, and a leading sub-threshold run requires the
silence timer to start unarmed. -/
theorem count_altShortRuns : ∀ (bs : List (List (ℚ × List Int))) (ab : Bool)
    (s : ListenState), altShortRuns ab bs → (ab = false → s.silenceStart = none) →
    toggleOffCount s bs.flatten = 0 := by
  intro bs
  induction bs with
  | nil => intro ab s _ _; rfl
  | cons b rest ih =>
    intro ab s halt h0
    obtain ⟨hne, hblock, hrest⟩ := halt
    rw [List.flatten_cons, toggleOffCount_append]
    cases ab with
    | true =>
      simp only [if_pos rfl] at hblock
      rw [count_blockAbove b s hblock]
      rw [ih false (listenRun s b) hrest
        (fun _ => silence_after_blockAbove b s hblock hne)]
    | false =>
      simp only [Bool.false_eq_true, if_neg (Bool.false_ne_true)] at hblock
      rw [count_blockBelowShort b s hblock (h0 rfl)]
      rw [ih true (listenRun s b) hrest (fun h => by cases h)]

/-- Counterexample to C3 as stated: starting mid-utterance with the timer
unarmed, two sub-threshold chunks whose timestamps are exactly 500 ms apart —
a silence run spanning exactly (hence at least) 500 ms — never toggle
`is_speaking` off, because the code requires the gap to strictly exceed
`SILENCE_DURATION`. -/
theorem vad_exact_500ms_gap_does_not_toggle :
    (∀ c ∈ silence500Run, rms c.2 ≤ vadThreshold) ∧
    silence500Run.head?.map Prod.fst = some 0 ∧
    silence500Run.getLast?.map Prod.fst = some silenceDuration ∧
    speakingState.isSpeaking = true ∧
    toggleOffCount speakingState silence500Run = 0 ∧
    (listenRun speakingState silence500Run).isSpeaking = true := by
  have hrms : rms [(0 : Int)] = 0 := rms_zero_chunk
  have ha : ¬ vadThreshold < rms [(0 : Int)] := by
    rw [hrms]; simp [vadThreshold]
  have h1 := listenStep_below_speaking_none speakingState 0 [(0 : Int)] ha rfl rfl
  have hshort : ¬ silenceDuration < (1/2 : ℚ) - 0 := by
    simp [silenceDuration]
  have h2 := listenStep_below_speaking_short
    (listenStep speakingState 0 [(0 : Int)]) (1/2 : ℚ) 0 [(0 : Int)] ha h1.1 h1.2 hshort
  refine ⟨?_, rfl, ?_, rfl, ?_, ?_⟩
  · intro c hc
    simp only [silence500Run, List.mem_cons, List.mem_singleton] at hc
    rcases hc with h | h | h
    · rw [h, hrms]; simp [vadThreshold]
    · rw [h, hrms]; simp [vadThreshold]
    · cases h
  · simp [silence500Run, silenceDuration]
  · show toggleOffCount speakingState [((0 : ℚ), [(0 : Int)]), ((1/2 : ℚ), [(0 : Int)])] = 0
    simp only [toggleOffCount]
    rw [h1.1, h2.1]
    simp
  · show (listenRun speakingState [((0 : ℚ), [(0 : Int)]), ((1/2 : ℚ), [(0 : Int)])]).isSpeaking = true
    rw [listenRun_cons, listenRun_cons, listenRun_nil]
    exact h2.1

/-- C3 (amended): over any chunk sequence whose maximal sub-threshold runs
each span less than 500 ms, `is_speaking` is never toggled off; and a
sub-threshold run several chunks long that, while speaking, contains a chunk
arriving strictly more than 500 ms after the first sub-threshold chunk
toggles `is_speaking` off exactly once. -/
theorem vad_debounce :
    (∀ (s0 : ListenState) (ab : Bool) (bs : List (List (ℚ × List Int))),
       s0.silenceStart = none → altShortRuns ab bs →
       toggleOffCount s0 bs.flatten = 0) ∧
    (∀ (s0 : ListenState) (c0 : ℚ × List Int) (cs : List (ℚ × List Int)),
       s0.isSpeaking = true → s0.silenceStart = none →
       (∀ c ∈ c0 :: cs, rms c.2 ≤ vadThreshold) →
       (∃ c ∈ cs, c0.1 + silenceDuration < c.1) →
       toggleOffCount s0 (c0 :: cs) = 1 ∧
       (listenRun s0 (c0 :: cs)).isSpeaking = false) := by
  constructor
  · intro s0 ab bs h0 halt
    exact count_altShortRuns bs ab s0 halt (fun _ => h0)
  · intro s0 c0 cs hs h0 hbelow hex
    have ha : ¬ vadThreshold < rms c0.2 := by
      have := hbelow c0 (List.mem_cons_self c0 cs)
      omega
    have hstep := listenStep_below_speaking_none s0 c0.1 c0.2 ha hs h0
    have hex2 : ∃ c ∈ cs, silenceDuration < c.1 - c0.1 := by
      obtain ⟨c, hc, hct⟩ := hex
      exact ⟨c, hc, by linarith⟩
    have hrest := count_below_armed_fires cs (listenStep s0 c0.1 c0.2) c0.1
      hstep.1 hstep.2 (fun x hx => hbelow x (List.mem_cons_of_mem c0 hx)) hex2
    refine ⟨?_, ?_⟩
    · simp only [toggleOffCount]
      rw [hrest.1]
      simp [hstep.1]
    · rw [listenRun_cons]
      exact hrest.2

/-- Witness instantiating the amended C3: a short sub-threshold run toggles
nothing; a run whose second chunk arrives 1 s after the first toggles speech
off exactly once. -/
theorem vad_debounce_witness :
    toggleOffCount speakingState [[((0 : ℚ), [(0 : Int)])]].flatten = 0 ∧
    toggleOffCount speakingState [((0 : ℚ), [(0 : Int)]), ((1 : ℚ), [(0 : Int)])] = 1 ∧
    (listenRun speakingState [((0 : ℚ), [(0 : Int)]), ((1 : ℚ), [(0 : Int)])]).isSpeaking
      = false := by
  have hrms : rms [(0 : Int)] = 0 := rms_zero_chunk
  have h1 := vad_debounce.1 speakingState false [[((0 : ℚ), [(0 : Int)])]] rfl
    (by
      refine ⟨by simp, ?_, trivial⟩
      simp only [Bool.false_eq_true, if_neg (Bool.false_ne_true)]
      intro c hc
      rcases List.mem_singleton.mp hc with h
      rw [h]
      exact ⟨by rw [hrms]; simp [vadThreshold], by simp [silenceDuration]⟩)
  have h2 := vad_debounce.2 speakingState ((0 : ℚ), [(0 : Int)]) [((1 : ℚ), [(0 : Int)])]
    rfl rfl
    (by
      intro c hc
      rcases List.mem_cons.mp hc with h | h
      · rw [h, hrms]; simp [vadThreshold]
      · rcases List.mem_singleton.mp h with h
        rw [h, hrms]; simp [vadThreshold])
    ⟨((1 : ℚ), [(0 : Int)]), List.mem_singleton.mpr rfl, by simp [silenceDuration]; norm_num⟩
  exact ⟨h1, h2.1, h2.2⟩

/-- C4: an above-threshold chunk at utterance onset with no frame ever
captured turns the detector on and enqueues only the audio chunk (zero image
frames); an above-threshold chunk while already speaking enqueues only the
audio chunk even when a frame is available — a frame can only go out at an
onset. -/
theorem frame_only_on_utterance_onset :
    (∀ (s : ListenState) (t : ℚ) (d : List Int),
       vadThreshold < rms d → s.isSpeaking = false → s.latestImage = none →
       (listenStep s t d).isSpeaking = true ∧
       (listenStep s t d).outQueue = s.outQueue ++ [OutItem.audio d]) ∧
    (∀ (s : ListenState) (t : ℚ) (d : List Int),
       vadThreshold < rms d → s.isSpeaking = true →
       (listenStep s t d).outQueue = s.outQueue ++ [OutItem.audio d]) := by
  constructor
  · intro s t d ha hs him
    simp [listenStep, if_pos ha, hs, him]
  · intro s t d ha hs
    simp [listenStep, if_pos ha, hs]

/-- Witness instantiating C4: a loud chunk from the fresh state with no frame,
then a loud chunk while speaking with a frame available. -/
theorem frame_only_on_utterance_onset_witness :
    ((listenStep listenInit 0 [(900 : Int)]).isSpeaking = true ∧
     (listenStep listenInit 0 [(900 : Int)]).outQueue =
       listenInit.outQueue ++ [OutItem.audio [(900 : Int)]]) ∧
    (listenStep (sendFrame speakingState localOkText) 0 [(900 : Int)]).outQueue =
      (sendFrame speakingState localOkText).outQueue ++ [OutItem.audio [(900 : Int)]] :=
  have hloud : vadThreshold < rms [(900 : Int)] := by
    rw [rms_loud_chunk]; simp [vadThreshold]
  ⟨frame_only_on_utterance_onset.1 listenInit 0 [(900 : Int)] hloud rfl rfl,
   frame_only_on_utterance_onset.2 (sendFrame speakingState localOkText) 0 [(900 : Int)]
     hloud rfl⟩

/-! ## Theorems: synchronous tool dispatch failure -/

/-- Counterexample to C9 as stated: an auto-allowed `control_light` call whose
agent raises does not produce any caught-and-synthesized failure result — the
exception escapes the dispatch, aborts the whole batch, and (re-raised by the
outer handler of `receive_audio`) terminates the receive loop. -/
theorem sync_tool_exception_escapes_dispatch :
    processFunctionCall envAgentRaisesDemo pendingEmpty fcControlLightDemo =
      Except.error agentBoomMsg ∧
    processBatch envAgentRaisesDemo pendingEmpty [] [fcControlLightDemo, fcListProjectsDemo] =
      Except.error agentBoomMsg := by
  have h1 : processFunctionCall envAgentRaisesDemo pendingEmpty fcControlLightDemo =
      Except.error agentBoomMsg := by
    simp [processFunctionCall, fcControlLightDemo, envAgentRaisesDemo, executeTool,
      recognizedTools, syncAgentTools, toolControlLight, toolGenerateCad, toolRunWebAgent,
      toolWriteFile, toolReadDirectory, toolReadFile]
  exact ⟨h1, by simp [processBatch, h1]⟩

/-- C9 (amended): when the awaited agent of a synchronous tool raises, the
exception is not caught at the dispatch site: the dispatch result is that
error, whether the call was auto-allowed or confirmed, and the batch — and
with it the receive loop, whose outer handler re-raises — terminates without
any synthesized failure result for that call. -/
theorem sync_tool_exception_propagates :
    (∀ (env : DispatchEnv) (pending : Pending) (fc : FunctionCall) (e : String),
       fc.name ∈ syncAgentTools →
       (env.permissions fc.name).getD true = false →
       env.agent fc.name = Except.error e →
       processFunctionCall env pending fc = Except.error e) ∧
    (∀ (env : DispatchEnv) (pending : Pending) (fc : FunctionCall) (e : String),
       fc.name ∈ syncAgentTools →
       (env.permissions fc.name).getD true = true →
       env.onToolConfirmation = true →
       env.decision env.newRequestId = true →
       env.agent fc.name = Except.error e →
       processFunctionCall env pending fc = Except.error e) ∧
    (∀ (env : DispatchEnv) (pending : Pending) (fc : FunctionCall) (e : String)
       (acc : List FunctionResponse) (fcs : List FunctionCall),
       processFunctionCall env pending fc = Except.error e →
       processBatch env pending acc (fc :: fcs) = Except.error e) := by
  have hexec : ∀ (env : DispatchEnv) (fc : FunctionCall) (e : String),
      fc.name ∈ syncAgentTools → env.agent fc.name = Except.error e →
      executeTool env fc = Except.error e := by
    intro env fc e hmem hagent
    have hnot : fc.name ≠ toolGenerateCad ∧ fc.name ≠ toolRunWebAgent ∧
        fc.name ≠ toolWriteFile ∧ fc.name ≠ toolReadDirectory ∧
        fc.name ≠ toolReadFile := by
      simp only [syncAgentTools, List.mem_cons, List.not_mem_nil, or_false] at hmem
      rcases hmem with h | h | h | h | h <;>
        exact h ▸ (by refine ⟨?_, ?_, ?_, ?_, ?_⟩ <;> decide)
    simp [executeTool, hnot.1, hnot.2.1, hnot.2.2.1, hnot.2.2.2.1, hnot.2.2.2.2,
      hmem, hagent]
  have hrec : ∀ fc : FunctionCall, fc.name ∈ syncAgentTools → fc.name ∈ recognizedTools := by
    intro fc hmem
    simp only [syncAgentTools, List.mem_cons, List.not_mem_nil, or_false] at hmem
    rcases hmem with h | h | h | h | h <;> (rw [h]; decide)
  refine ⟨?_, ?_, ?_⟩
  · intro env pending fc e hmem hperm hagent
    simp [processFunctionCall, hrec fc hmem, hperm, hexec env fc e hmem hagent]
  · intro env pending fc e hmem hperm hcb hdec hagent
    simp [processFunctionCall, hrec fc hmem, hperm, hcb, hdec,
      hexec env fc e hmem hagent]
  · intro env pending fc e acc fcs h
    simp [processBatch, h]

/-- Witness instantiating the amended C9 at a concrete raising agent. -/
theorem sync_tool_exception_propagates_witness :
    processFunctionCall envAgentRaisesDemo pendingDemo fcControlLightDemo =
      Except.error agentBoomMsg ∧
    processBatch envConfirmRaiseDemo pendingDemo []
      [{ id := callId2, name := toolPrintStl }] = Except.error agentBoomMsg :=
  have hfirst : processFunctionCall envAgentRaisesDemo pendingDemo fcControlLightDemo =
      Except.error agentBoomMsg :=
    sync_tool_exception_propagates.1 envAgentRaisesDemo pendingDemo fcControlLightDemo
      agentBoomMsg (by decide) (by simp [envAgentRaisesDemo]) (by simp [envAgentRaisesDemo])
  have hsecond : processFunctionCall envConfirmRaiseDemo pendingDemo
      { id := callId2, name := toolPrintStl } = Except.error agentBoomMsg :=
    sync_tool_exception_propagates.2.1 envConfirmRaiseDemo pendingDemo
      { id := callId2, name := toolPrintStl } agentBoomMsg (by decide)
      (by simp [envConfirmRaiseDemo]) (by simp [envConfirmRaiseDemo])
      (by simp [envConfirmRaiseDemo]) (by simp [envConfirmRaiseDemo])
  ⟨hfirst,
   sync_tool_exception_propagates.2.2 envConfirmRaiseDemo pendingDemo
     { id := callId2, name := toolPrintStl } agentBoomMsg [] [] hsecond⟩

end Ada
